import Mathlib

/-!
Verification of the `at` data-model / JSON mapping layer (`include/at/types.hpp`).

The C++ header defines domain value types for a cryptocurrency trading client
and nlohmann-json codecs for them.  This file shallowly embeds those
definitions and proves/refutes the specified properties.

Modelling conventions:
* JSON documents are the inductive `AT.Json` (null / bool / number / string /
  array / object as an ordered association list).  C++ `double` fields are
  modelled as `ℚ`: the claims under study only carry numbers through
  decode/encode unchanged, so IEEE-754 rounding is irrelevant to them.
* nlohmann exceptions are modelled by the error type `AT.JErr` in an `Except`
  monad: `json::out_of_range` from `.at(key)` is `.missingField key`,
  `json::type_error` from `get<T>()` / `.at` on a wrong kind is
  `.typeMismatch`, `json::parse_error` is `.parseError`, and C++
  `std::runtime_error` thrown by `numeric_string` is `.runtimeError msg`.
  `operator[](key) const` on a missing key is *undefined behaviour* in
  nlohmann (an assertion, not a catchable error); it is modelled by the
  distinct error `.uncheckedAccess key` so that theorems can distinguish it
  from the named `missingField` failure produced by `.at`.
* C `::toupper` (used through `at::toupper`) is modelled by `ctoupper`,
  the ASCII upper-casing map, matching the "C" locale on ASCII data.
-/

namespace AT

/-- ASCII upper-casing of one character: C `::toupper` in the "C" locale
maps `'a'..'z'` (codes 97..122) to `'A'..'Z'` and leaves everything else. -/
def ctoupper (c : Char) : Char :=
  if 97 ≤ c.toNat ∧ c.toNat ≤ 122 then Char.ofNat (c.toNat - 32) else c

/-- `at::toupper`: in-place `std::transform` with `::toupper` over the string. -/
def toupper (s : String) : String := ⟨s.data.map ctoupper⟩

/-- Lexicographic `≤` on char lists via code points; used to model the
key ordering of nlohmann's `std::map<std::string, json>` object storage. -/
def lexLe : List Char → List Char → Bool
  | [], _ => true
  | _ :: _, [] => false
  | a :: as, b :: bs =>
    if a.toNat < b.toNat then true
    else if b.toNat < a.toNat then false
    else lexLe as bs

/-- A JSON document: the value tree of `nlohmann::json`.  Objects are kept as
ordered association lists; numbers are modelled as rationals (see header). -/
inductive Json where
  | null
  | bool (b : Bool)
  | num (q : ℚ)
  | str (s : String)
  | arr (xs : List Json)
  | obj (fields : List (String × Json))
deriving Repr

/-- Failure modes of the mapping layer (see the header comment). -/
inductive JErr where
  | missingField (k : String)
  | outOfRange (i : Nat)
  | typeMismatch (expected : String)
  | parseError
  | runtimeError (msg : String)
  | uncheckedAccess (k : String)
deriving Repr, DecidableEq

/-- First-match key lookup in an object's field list. -/
def lookupKey (k : String) : List (String × Json) → Option Json
  | [] => none
  | (k', v) :: fs => if k' = k then some v else lookupKey k fs

/-- `j.at(key)`: checked object access.  Missing key raises
`json::out_of_range` naming the key; non-object raises `json::type_error`. -/
def Json.atKey (j : Json) (k : String) : Except JErr Json :=
  match j with
  | .obj fs =>
    match lookupKey k fs with
    | some v => .ok v
    | none => .error (.missingField k)
  | _ => .error (.typeMismatch "object")

/-- `j[key]` on a `const json&`: unchecked object access.  When the key is
absent (or the value is not an object) the C++ behaviour is undefined
(`JSON_ASSERT`); modelled as the distinct `uncheckedAccess` error. -/
def Json.index (j : Json) (k : String) : Except JErr Json :=
  match j with
  | .obj fs =>
    match lookupKey k fs with
    | some v => .ok v
    | none => .error (.uncheckedAccess k)
  | _ => .error (.uncheckedAccess k)

/-- `j.at(i)`: checked array access. -/
def Json.atIdx (j : Json) (i : Nat) : Except JErr Json :=
  match j with
  | .arr xs =>
    match xs.get? i with
    | some v => .ok v
    | none => .error (.outOfRange i)
  | _ => .error (.typeMismatch "array")

/-- `get<std::string>()`. -/
def Json.getString (j : Json) : Except JErr String :=
  match j with
  | .str s => .ok s
  | _ => .error (.typeMismatch "string")

/-- `get<double>()`: succeeds exactly on JSON numbers. -/
def Json.getNum (j : Json) : Except JErr ℚ :=
  match j with
  | .num q => .ok q
  | _ => .error (.typeMismatch "number")

/-- Rendering of a JSON number.  nlohmann prints integer numbers without a
decimal point; non-integral values are modelled as `num/den` (the claims only
exercise the integral case). -/
def qRender (q : ℚ) : String :=
  if q.den = 1 then toString q.num else toString q.num ++ "/" ++ toString q.den

/-- Comma-separated concatenation, as in compact `dump()`. -/
def commaJoin : List String → String
  | [] => ""
  | [x] => x
  | x :: xs => x ++ "," ++ commaJoin xs

/-- Compact serialization of a document: `stream << field` / `dump()`.
String escaping is elided (no claim exercises it). -/
def Json.render : Json → String
  | .null => "null"
  | .bool true => "true"
  | .bool false => "false"
  | .num q => qRender q
  | .str s => "\"" ++ s ++ "\""
  | .arr xs => "[" ++ commaJoin (xs.attach.map (fun x => Json.render x.val)) ++ "]"
  | .obj fs =>
    "\x7b" ++
      commaJoin (fs.attach.map (fun p => "\"" ++ p.val.1 ++ "\":" ++ Json.render p.val.2)) ++
      "\x7d"
decreasing_by
  · have := List.sizeOf_lt_of_mem x.property
    simp [Json.arr.sizeOf_spec] at *
    omega
  · have h1 := List.sizeOf_lt_of_mem p.property
    have h2 : sizeOf p.val.2 < sizeOf p.val := by
      obtain ⟨k, v⟩ := p.val
      simp
    simp [Json.obj.sizeOf_spec] at *
    omega

/-- `at::numeric_string`: returns the string if the field is a string, the
literal `"0.0"` if it is null, and otherwise throws `std::runtime_error`
with the message built from the rendered field. -/
def numeric_string (field : Json) : Except JErr String :=
  match field with
  | .str s => .ok s
  | .null => .ok "0.0"
  | j => .error (.runtimeError ("field " ++ j.render ++ " is not string or null"))

/-- `at::currency_pair_t`: the default constructor leaves both components as
empty `std::string`s. -/
structure currency_pair_t where
  first : String := ""
  second : String := ""
deriving DecidableEq, Repr

/-- The two-argument `currency_pair_t` constructor: upper-cases both inputs. -/
def currency_pair_t.make (f s : String) : currency_pair_t :=
  ⟨toupper f, toupper s⟩

/-- `currency_pair_t::str()`: `first + "_" + second`. -/
def currency_pair_t.str (c : currency_pair_t) : String :=
  c.first ++ "_" ++ c.second

/-- `to_json(json&, currency_pair_t)`: `j = json{c.first, c.second}` builds a
two-element array. -/
def currency_pair_to_json (c : currency_pair_t) : Except JErr Json :=
  .ok (.arr [.str c.first, .str c.second])

/-- `from_json(const json&, currency_pair_t&)`: assigns
`c.first = j.at(0).get<string>()` and `c.second = j.at(1).get<string>()`
directly to the public fields (the upper-casing constructor is NOT used). -/
def currency_pair_from_json (j : Json) : Except JErr currency_pair_t := do
  let a ← j.atIdx 0
  let f ← a.getString
  let b ← j.atIdx 1
  let s ← b.getString
  .ok ⟨f, s⟩

/-- `std::string::find_last_of("_")` on the character list of the string:
index of the last `'_'`, or `none` for `npos`. -/
def findLastUS : List Char → Option Nat
  | [] => none
  | c :: cs =>
    match findLastUS cs with
    | some i => some (i + 1)
    | none => if c = '_' then some 0 else none

/-- The delimited-string pair decode shared verbatim by
`from_json(exchange_info_t)` and `from_json(market_info_t)`: split at the last
`'_'` and rebuild through the upper-casing constructor; when no `'_'` exists
the pair stays default-constructed. -/
def pair_from_delimited (s : String) : currency_pair_t :=
  match findLastUS s.data with
  | some i => currency_pair_t.make ⟨s.data.take i⟩ ⟨s.data.drop (i + 1)⟩
  | none => {}

/-- `at::coin_t`. -/
structure coin_t where
  name : String
  symbol : String
  status : String
deriving DecidableEq, Repr

/-- `to_json(coin_t)`. -/
def coin_to_json (c : coin_t) : Except JErr Json :=
  .ok (.obj [("name", .str c.name), ("symbol", .str c.symbol), ("status", .str c.status)])

/-- `from_json(coin_t)`. -/
def coin_from_json (j : Json) : Except JErr coin_t := do
  let n ← (← j.atKey "name").getString
  let s ← (← j.atKey "symbol").getString
  let st ← (← j.atKey "status").getString
  .ok ⟨n, s, st⟩

/-- `at::deposit_limit_t`. -/
structure deposit_limit_t where
  min : ℚ
  max : ℚ
deriving DecidableEq, Repr

/-- `to_json(deposit_limit_t)`. -/
def deposit_limit_to_json (d : deposit_limit_t) : Except JErr Json :=
  .ok (.obj [("min", .num d.min), ("max", .num d.max)])

/-- `from_json(deposit_limit_t)`: `j.at("min")`, `j.at("max")`. -/
def deposit_limit_from_json (j : Json) : Except JErr deposit_limit_t := do
  let mn ← (← j.atKey "min").getNum
  let mx ← (← j.atKey "max").getNum
  .ok ⟨mn, mx⟩

/-- `at::deposit_info_t`. -/
structure deposit_info_t where
  limit : deposit_limit_t
  fee : ℚ
  currency : String
  method : String
deriving DecidableEq, Repr

/-- `to_json(deposit_info_t)`: `{"limit", d.limit}` implicitly encodes the
nested limit. -/
def deposit_info_to_json (d : deposit_info_t) : Except JErr Json := do
  let lim ← deposit_limit_to_json d.limit
  .ok (.obj [("limit", lim), ("fee", .num d.fee),
             ("currency", .str d.currency), ("method", .str d.method)])

/-- `from_json(deposit_info_t)`: note the unchecked `j["limit"]["max"]` /
`j["limit"]["min"]` accesses, versus `.at` for the remaining fields. -/
def deposit_info_from_json (j : Json) : Except JErr deposit_info_t := do
  let mx ← (← (← j.index "limit").index "max").getNum
  let mn ← (← (← j.index "limit").index "min").getNum
  let fee ← (← j.atKey "fee").getNum
  let cur ← (← j.atKey "currency").getString
  let mth ← (← j.atKey "method").getString
  .ok ⟨⟨mn, mx⟩, fee, cur, mth⟩

/-- `at::exchange_info_t`. -/
structure exchange_info_t where
  pair : currency_pair_t
  limit : deposit_limit_t
  rate : ℚ
  miner_fee : ℚ
deriving DecidableEq, Repr

/-- `to_json(exchange_info_t)`: the pair is emitted as the single delimited
string `m.pair.str()`. -/
def exchange_info_to_json (m : exchange_info_t) : Except JErr Json := do
  let lim ← deposit_limit_to_json m.limit
  .ok (.obj [("pair", .str m.pair.str), ("limit", lim),
             ("rate", .num m.rate), ("miner_fee", .num m.miner_fee)])

/-- `from_json(exchange_info_t)`: decodes limit, rate, miner_fee via `.at`,
then derives the pair from the `"pair"` string by the last-`'_'` split;
without a delimiter the pair stays default-constructed. -/
def exchange_info_from_json (j : Json) : Except JErr exchange_info_t := do
  let lim ← (← j.atKey "limit") |> deposit_limit_from_json
  let rate ← (← j.atKey "rate").getNum
  let mf ← (← j.atKey "miner_fee").getNum
  let ps ← (← j.atKey "pair").getString
  .ok ⟨pair_from_delimited ps, lim, rate, mf⟩

/-- `at::market_info_t`. -/
structure market_info_t where
  pair : currency_pair_t
  limit : deposit_limit_t
  maker_fee : ℚ
  taker_fee : ℚ
deriving DecidableEq, Repr

/-- `to_json(market_info_t)`: field order pair, limit, taker_fee, maker_fee. -/
def market_info_to_json (m : market_info_t) : Except JErr Json := do
  let lim ← deposit_limit_to_json m.limit
  .ok (.obj [("pair", .str m.pair.str), ("limit", lim),
             ("taker_fee", .num m.taker_fee), ("maker_fee", .num m.maker_fee)])

/-- `from_json(market_info_t)`: limit, maker_fee, taker_fee via `.at`, then
the same delimited pair split as `exchange_info_t`. -/
def market_info_from_json (j : Json) : Except JErr market_info_t := do
  let lim ← (← j.atKey "limit") |> deposit_limit_from_json
  let mk ← (← j.atKey "maker_fee").getNum
  let tk ← (← j.atKey "taker_fee").getNum
  let ps ← (← j.atKey "pair").getString
  .ok ⟨pair_from_delimited ps, lim, mk, tk⟩

/-- `at::status_t` is `enum class status_t : char` with
`no_deposists = 'a'` and the later members incrementing from there;
as in C++, the type can carry any `char` value. -/
abbrev status_t := Char

def status_t.no_deposists : status_t := 'a'

def status_t.initial : status_t := 'b'

def status_t.received : status_t := 'c'

def status_t.complete : status_t := 'd'

def status_t.settled : status_t := 'e'

def status_t.pending : status_t := 'f'

def status_t.failed : status_t := 'g'

/-- The `partial` member ('h'); `partial` is a Lean keyword, hence the
trailing underscore. -/
def status_t.partial_ : status_t := 'h'

def status_t.expired : status_t := 'i'

/-- `operator<<(std::ostream&, const status_t&)`: the switch has explicit
cases for the first eight members; `expired` and anything else fall through
to the `default:` branch printing `"expired"`. -/
def status_str (s : status_t) : String :=
  if s = status_t.no_deposists then "no_deposists"
  else if s = status_t.initial then "initial"
  else if s = status_t.received then "received"
  else if s = status_t.complete then "complete"
  else if s = status_t.settled then "settled"
  else if s = status_t.pending then "pending"
  else if s = status_t.failed then "failed"
  else if s = status_t.partial_ then "partial"
  else "expired"

/-- JSON insignificant whitespace (RFC 8259): space, tab, line feed, return. -/
def isWs (c : Char) : Bool := c = ' ' || c = '\t' || c = '\n' || c = '\r'

def skipWs : List Char → List Char
  | [] => []
  | c :: cs => if isWs c then skipWs cs else c :: cs

def isDigit (c : Char) : Bool := 48 ≤ c.toNat && c.toNat ≤ 57

/-- Splits a maximal run of decimal digits off the front. -/
def takeDigits : List Char → List Char × List Char
  | [] => ([], [])
  | c :: cs =>
    if isDigit c then
      let (d, r) := takeDigits cs
      (c :: d, r)
    else ([], c :: cs)

def digitsToNat (acc : Nat) : List Char → Nat
  | [] => acc
  | c :: cs => digitsToNat (acc * 10 + (c.toNat - 48)) cs

def hexVal (c : Char) : Option Nat :=
  if 48 ≤ c.toNat ∧ c.toNat ≤ 57 then some (c.toNat - 48)
  else if 97 ≤ c.toNat ∧ c.toNat ≤ 102 then some (c.toNat - 87)
  else if 65 ≤ c.toNat ∧ c.toNat ≤ 70 then some (c.toNat - 55)
  else none

/-- Body of a JSON string literal after the opening quote: consumes up to the
closing quote, decoding escapes.  `\uXXXX` becomes the code point directly
(surrogate-pair combination is elided; no claim exercises it).  Unescaped
control characters are rejected as in nlohmann. -/
def parseChars : Nat → List Char → Except JErr (List Char × List Char)
  | 0, _ => .error .parseError
  | _, [] => .error .parseError
  | fuel + 1, c :: cs =>
    if c = '"' then .ok ([], cs)
    else if c = '\\' then
      match cs with
      | [] => .error .parseError
      | e :: cs' =>
        let esc : Option (Char × List Char) :=
          if e = '"' then some ('"', cs')
          else if e = '\\' then some ('\\', cs')
          else if e = '/' then some ('/', cs')
          else if e = 'b' then some ('\x08', cs')
          else if e = 'f' then some ('\x0c', cs')
          else if e = 'n' then some ('\n', cs')
          else if e = 'r' then some ('\r', cs')
          else if e = 't' then some ('\t', cs')
          else if e = 'u' then
            match cs' with
            | h1 :: h2 :: h3 :: h4 :: rest =>
              match hexVal h1, hexVal h2, hexVal h3, hexVal h4 with
              | some a, some b, some c2, some d =>
                some (Char.ofNat (((a * 16 + b) * 16 + c2) * 16 + d), rest)
              | _, _, _, _ => none
            | _ => none
          else none
        match esc with
        | some (ch, rest) => do
          let (xs, r) ← parseChars fuel rest
          .ok (ch :: xs, r)
        | none => .error .parseError
    else if c.toNat < 32 then .error .parseError
    else do
      let (xs, r) ← parseChars fuel cs
      .ok (c :: xs, r)

/-- Value of a parsed JSON number from sign, integer digits, fraction digits
and decimal exponent. -/
def mkNum (neg : Bool) (ids fds : List Char) (e : Int) : ℚ :=
  let mant : Nat := digitsToNat 0 (ids ++ fds)
  let mag : ℚ := (mant : ℚ) * (10 : ℚ) ^ (e - fds.length)
  if neg then -mag else mag

/-- Strict JSON number grammar: `-?(0|[1-9][0-9]*)(\.[0-9]+)?([eE][+-]?[0-9]+)?`. -/
def parseNumber (cs : List Char) : Except JErr (ℚ × List Char) :=
  let (neg, cs1) :=
    match cs with
    | '-' :: r => (true, r)
    | _ => (false, cs)
  let (ids, cs2) := takeDigits cs1
  if ids.isEmpty then .error .parseError
  else if 2 ≤ ids.length ∧ ids.head? = some '0' then .error .parseError
  else
    match cs2 with
    | '.' :: r =>
      let (fds, cs3) := takeDigits r
      if fds.isEmpty then .error .parseError
      else parseExp neg ids fds cs3
    | _ => parseExp neg ids [] cs2
where
  parseExp (neg : Bool) (ids fds : List Char) (cs : List Char) :
      Except JErr (ℚ × List Char) :=
    match cs with
    | c :: r =>
      if c = 'e' ∨ c = 'E' then
        let (esign, r1) :=
          match r with
          | '+' :: r2 => ((1 : Int), r2)
          | '-' :: r2 => ((-1 : Int), r2)
          | _ => ((1 : Int), r)
        let (eds, r2) := takeDigits r1
        if eds.isEmpty then .error .parseError
        else .ok (mkNum neg ids fds (esign * (digitsToNat 0 eds : Int)), r2)
      else .ok (mkNum neg ids fds 0, cs)
    | [] => .ok (mkNum neg ids fds 0, cs)

/-- Appends a parsed object member; a duplicate key keeps the later value, as
in nlohmann's DOM builder (`operator[]` assignment overwrites). -/
def consMember (k : String) (v : Json) (fs : List (String × Json)) :
    List (String × Json) :=
  match lookupKey k fs with
  | some _ => fs
  | none => (k, v) :: fs

mutual

/-- Recursive-descent JSON value parser (fuel-indexed; `jsonParse` supplies
enough fuel for any input it is called on). -/
def parseValue : Nat → List Char → Except JErr (Json × List Char)
  | 0, _ => .error .parseError
  | fuel + 1, cs =>
    match skipWs cs with
    | [] => .error .parseError
    | c :: rest =>
      if c = 'n' then
        match rest with
        | 'u' :: 'l' :: 'l' :: r => .ok (.null, r)
        | _ => .error .parseError
      else if c = 't' then
        match rest with
        | 'r' :: 'u' :: 'e' :: r => .ok (.bool true, r)
        | _ => .error .parseError
      else if c = 'f' then
        match rest with
        | 'a' :: 'l' :: 's' :: 'e' :: r => .ok (.bool false, r)
        | _ => .error .parseError
      else if c = '"' then do
        let (xs, r) ← parseChars (rest.length + 1) rest
        .ok (.str ⟨xs⟩, r)
      else if c = '[' then
        match skipWs rest with
        | ']' :: r => .ok (.arr [], r)
        | r2 => do
          let (xs, r) ← parseElems fuel r2
          .ok (.arr xs, r)
      else if c = '\x7b' then
        match skipWs rest with
        | '\x7d' :: r => .ok (.obj [], r)
        | r2 => do
          let (fs, r) ← parseMembers fuel r2
          .ok (.obj fs, r)
      else do
        let (q, r) ← parseNumber (c :: rest)
        .ok (.num q, r)

/-- Non-empty array element list, after the opening bracket. -/
def parseElems : Nat → List Char → Except JErr (List Json × List Char)
  | 0, _ => .error .parseError
  | fuel + 1, cs => do
    let (v, r) ← parseValue fuel cs
    match skipWs r with
    | ',' :: r2 => do
      let (vs, r3) ← parseElems fuel r2
      .ok (v :: vs, r3)
    | ']' :: r2 => .ok ([v], r2)
    | _ => .error .parseError

/-- Non-empty object member list, after the opening brace. -/
def parseMembers : Nat → List Char → Except JErr (List (String × Json) × List Char)
  | 0, _ => .error .parseError
  | fuel + 1, cs =>
    match skipWs cs with
    | '"' :: r => do
      let (ks, r1) ← parseChars (r.length + 1) r
      match skipWs r1 with
      | ':' :: r2 => do
        let (v, r3) ← parseValue fuel r2
        match skipWs r3 with
        | ',' :: r4 => do
          let (fs, r5) ← parseMembers fuel r4
          .ok (consMember ⟨ks⟩ v fs, r5)
        | '\x7d' :: r4 => .ok ([(⟨ks⟩, v)], r4)
        | _ => .error .parseError
      | _ => .error .parseError
    | _ => .error .parseError

end

/-- `json::parse` on a whole string: one value, optionally surrounded by
whitespace; anything else is a `parse_error`. -/
def jsonParse (s : String) : Except JErr Json := do
  let (v, r) ← parseValue (s.data.length + 1) s.data
  match skipWs r with
  | [] => .ok v
  | _ => .error .parseError

/-- `typedef std::string hash_t`. -/
abbrev hash_t := String

/-- `to_json(json&, const hash_t&)` is `j = json::parse(a)`: it re-parses the
stored string as a JSON document and therefore can fail. -/
def hash_to_json (a : hash_t) : Except JErr Json := jsonParse a

/-- `from_json(const json&, hash_t&)`. -/
def hash_from_json (j : Json) : Except JErr hash_t := j.getString

/-- Field order used by nlohmann's `std::map<std::string, json>` storage. -/
def keyLE (a b : String × Json) : Prop := lexLe a.1.data b.1.data = true

instance : DecidableRel keyLE := fun a b => by unfold keyLE; infer_instance

/-- Canonical form of a document: object fields sorted by key at every level.
nlohmann objects are `std::map`s, so their key order is never observable;
two documents are "equal up to mapping key order" iff their canonical forms
are equal. -/
def Json.canon : Json → Json
  | .null => .null
  | .bool b => .bool b
  | .num q => .num q
  | .str s => .str s
  | .arr xs => .arr (xs.attach.map (fun x => Json.canon x.val))
  | .obj fs =>
    .obj (List.insertionSort keyLE (fs.attach.map (fun p => (p.val.1, Json.canon p.val.2))))
decreasing_by
  · have := List.sizeOf_lt_of_mem x.property
    simp [Json.arr.sizeOf_spec] at *
    omega
  · have h1 := List.sizeOf_lt_of_mem p.property
    have h2 : sizeOf p.val.2 < sizeOf p.val := by
      obtain ⟨k, v⟩ := p.val
      simp
    simp [Json.obj.sizeOf_spec] at *
    omega

theorem toNat_inj_char {a b : Char} (h : a.toNat = b.toNat) : a = b := by
  have ha := Char.ofNat_toNat a
  rw [← ha, h, Char.ofNat_toNat]

theorem toNat_ofNat_valid {n : Nat} (h : n.isValidChar) : (Char.ofNat n).toNat = n := by
  unfold Char.ofNat
  rw [dif_pos h]
  rfl

theorem ctoupper_toNat (c : Char) :
    (ctoupper c).toNat = if 97 ≤ c.toNat ∧ c.toNat ≤ 122 then c.toNat - 32 else c.toNat := by
  unfold ctoupper
  split
  · next h =>
    rw [toNat_ofNat_valid]
    constructor
    omega
  · rfl

theorem ctoupper_idem (c : Char) : ctoupper (ctoupper c) = ctoupper c := by
  apply toNat_inj_char
  rw [ctoupper_toNat, ctoupper_toNat]
  by_cases h : 97 ≤ c.toNat ∧ c.toNat ≤ 122
  · rw [if_pos h, if_neg (by omega)]
  · rw [if_neg h, if_neg h]

theorem ctoupper_ne_us {c : Char} (h : c ≠ '_') : ctoupper c ≠ '_' := by
  intro hc
  have h95 : (ctoupper c).toNat = 95 := by rw [hc]; rfl
  rw [ctoupper_toNat] at h95
  split at h95
  · omega
  · exact h (toNat_inj_char (by rw [h95]; rfl))

theorem toupper_not_mem_us {s : String} (h : '_' ∉ s.data) : '_' ∉ (toupper s).data := by
  unfold toupper
  intro hmem
  obtain ⟨c, hc, hcu⟩ := List.mem_map.mp hmem
  exact ctoupper_ne_us (fun he => h (he ▸ hc)) hcu

theorem toupper_toupper (s : String) : toupper (toupper s) = toupper s := by
  unfold toupper
  apply String.ext
  simp [List.map_map, Function.comp, ctoupper_idem]

theorem findLastUS_eq_none {l : List Char} (h : '_' ∉ l) : findLastUS l = none := by
  induction l with
  | nil => rfl
  | cons c cs ih =>
    have hc : c ≠ '_' := fun he => h (he ▸ List.mem_cons_self c cs)
    have hcs : '_' ∉ cs := fun hm => h (List.mem_cons_of_mem c hm)
    simp [findLastUS, ih hcs, hc]

theorem findLastUS_append (A B : List Char) (hB : '_' ∉ B) :
    findLastUS (A ++ '_' :: B) = some A.length := by
  induction A with
  | nil =>
    simp [findLastUS, findLastUS_eq_none hB]
  | cons c cs ih =>
    simp [findLastUS, ih]

theorem findLastUS_isSome {l : List Char} (h : '_' ∈ l) : (findLastUS l).isSome := by
  by_contra hn
  have : findLastUS l = none := by
    cases he : findLastUS l
    · rfl
    · rw [he] at hn; simp at hn
  induction l with
  | nil => exact absurd h (List.not_mem_nil '_')
  | cons c cs ih =>
    unfold findLastUS at this
    rcases List.mem_cons.mp h with hc | hcs
    · revert this
      split
      · intro hx; exact absurd hx (by simp)
      · simp [← hc]
    · revert this
      split
      · intro hx; exact absurd hx (by simp)
      · next heq =>
        intro _
        have := findLastUS_eq_none (l := cs)
        rcases hfs : findLastUS cs with _ | i
        · exact absurd hcs (by
            intro hmem
            have hs := findLastUS_isSome_aux hfs
            exact hs hmem)
        · rw [hfs] at heq; exact absurd heq (by simp)
where
  findLastUS_isSome_aux {cs : List Char} (hfs : findLastUS cs = none) : '_' ∉ cs := by
    intro hmem
    induction cs with
    | nil => exact absurd hmem (List.not_mem_nil '_')
    | cons d ds ih =>
      unfold findLastUS at hfs
      revert hfs
      split
      · intro hx; exact absurd hx (by simp)
      · next hds =>
        split
        · intro hx; exact absurd hx (by simp)
        · next hd =>
          intro _
          rcases List.mem_cons.mp hmem with h1 | h1
          · exact hd h1.symm
          · exact ih hds h1

theorem findLastUS_last {l : List Char} {i : Nat} (h : findLastUS l = some i) :
    l.get? i = some '_' ∧ ∀ j, i < j → l.get? j ≠ some '_' := by
  induction l generalizing i with
  | nil => exact absurd h (by simp [findLastUS])
  | cons c cs ih =>
    unfold findLastUS at h
    revert h
    split
    · next i' heq =>
      intro h
      have hi : i = i' + 1 := by
        have := Option.some.inj h
        omega
      subst hi
      obtain ⟨h1, h2⟩ := ih heq
      refine ⟨by simpa using h1, ?_⟩
      intro j hj
      match j, hj with
      | j' + 1, hj =>
        simpa using h2 j' (by omega)
    · next heq =>
      split
      · next hc =>
        intro h
        have hi : i = 0 := by
          have := Option.some.inj h
          omega
        subst hi hc
        refine ⟨by simp, ?_⟩
        intro j hj
        match j, hj with
        | j' + 1, _ =>
          have hcs : '_' ∉ cs := by
            intro hmem
            have := findLastUS_isSome hmem
            rw [heq] at this
            simp at this
          simp only [List.get?_cons_succ]
          intro hg
          exact hcs (List.get?_mem hg)
      · intro h
        exact absurd h (by simp)

theorem lexLe_total (a b : List Char) : lexLe a b = true ∨ lexLe b a = true := by
  induction a generalizing b with
  | nil => left; rfl
  | cons x xs ih =>
    cases b with
    | nil => right; rfl
    | cons y ys =>
      simp only [lexLe]
      rcases Nat.lt_trichotomy x.toNat y.toNat with h | h | h
      · left; simp [h]
      · rcases ih ys with h2 | h2 <;> [left; right] <;> simp [h, h2]
      · right; simp [h, Nat.not_lt.mpr (Nat.le_of_lt h)]

theorem lexLe_trans {a b c : List Char} (h1 : lexLe a b = true) (h2 : lexLe b c = true) :
    lexLe a c = true := by
  induction a generalizing b c with
  | nil => rfl
  | cons x xs ih =>
    cases b with
    | nil => simp [lexLe] at h1
    | cons y ys =>
      cases c with
      | nil => simp [lexLe] at h2
      | cons z zs =>
        simp only [lexLe] at h1 h2 ⊢
        split_ifs at h1 h2 ⊢ with g1 g2 g3 g4 g5 g6 <;>
          first
          | rfl
          | omega
          | (exact ih h1 h2)

theorem lexLe_antisymm {a b : List Char} (h1 : lexLe a b = true) (h2 : lexLe b a = true) :
    a = b := by
  induction a generalizing b with
  | nil =>
    cases b with
    | nil => rfl
    | cons y ys => simp [lexLe] at h2
  | cons x xs ih =>
    cases b with
    | nil => simp [lexLe] at h1
    | cons y ys =>
      simp only [lexLe] at h1 h2
      by_cases g1 : x.toNat < y.toNat
      · rw [if_neg (by omega), if_pos g1] at h2
        simp at h2
      · by_cases g2 : y.toNat < x.toNat
        · rw [if_neg g1, if_pos g2] at h1
          simp at h1
        · rw [if_neg g1, if_neg g2] at h1
          rw [if_neg g2, if_neg g1] at h2
          rw [toNat_inj_char (by omega : x.toNat = y.toNat), ih h1 h2]

instance : IsTotal (String × Json) keyLE :=
  ⟨fun a b => lexLe_total a.1.data b.1.data⟩

instance : IsTrans (String × Json) keyLE :=
  ⟨fun _ _ _ h1 h2 => lexLe_trans h1 h2⟩

/-- Strict key order: used to show sorted field lists with distinct keys are
unique representatives of their permutation class. -/
def keyLT (a b : String × Json) : Prop := keyLE a b ∧ a.1 ≠ b.1

instance : IsAntisymm (String × Json) keyLT :=
  ⟨fun _ _ h1 h2 => (h1.2 (String.ext (lexLe_antisymm h1.1 h2.1))).elim⟩

theorem sorted_keyLT {l : List (String × Json)} (hs : l.Sorted keyLE)
    (hk : (l.map Prod.fst).Nodup) : l.Sorted keyLT := by
  have hne : l.Pairwise (fun a b => a.1 ≠ b.1) := List.pairwise_map.mp hk
  exact (hs.and hne).imp (fun h => h)

theorem insertionSort_eq_of_perm {l₁ l₂ : List (String × Json)} (h : l₁.Perm l₂)
    (hk : (l₁.map Prod.fst).Nodup) :
    List.insertionSort keyLE l₁ = List.insertionSort keyLE l₂ := by
  have p1 := List.perm_insertionSort keyLE l₁
  have p2 := List.perm_insertionSort keyLE l₂
  have hp : (List.insertionSort keyLE l₁).Perm (List.insertionSort keyLE l₂) :=
    p1.trans (h.trans p2.symm)
  have hk1 : ((List.insertionSort keyLE l₁).map Prod.fst).Nodup :=
    ((p1.map Prod.fst).symm).nodup hk
  have hk2 : ((List.insertionSort keyLE l₂).map Prod.fst).Nodup :=
    (hp.map Prod.fst).nodup hk1
  exact List.eq_of_perm_of_sorted hp
    (sorted_keyLT (List.sorted_insertionSort keyLE l₁) hk1)
    (sorted_keyLT (List.sorted_insertionSort keyLE l₂) hk2)

theorem lookupKey_perm {l₁ l₂ : List (String × Json)} (h : l₁.Perm l₂)
    (hk : (l₁.map Prod.fst).Nodup) (k : String) :
    lookupKey k l₁ = lookupKey k l₂ := by
  induction h with
  | nil => rfl
  | cons x hp ih =>
    obtain ⟨k', v⟩ := x
    simp only [lookupKey]
    split
    · rfl
    · exact ih (by simpa using (List.nodup_cons.mp (by simpa using hk)).2)
  | swap x y l =>
    obtain ⟨ka, va⟩ := x
    obtain ⟨kb, vb⟩ := y
    have h0 := hk
    simp at h0
    have hne : kb ≠ ka := h0.1.1
    by_cases hb : kb = k <;> by_cases ha : ka = k
    · exact (hne (hb.trans ha.symm)).elim
    · simp [lookupKey, hb, ha]
    · simp [lookupKey, hb, ha]
    · simp [lookupKey, hb, ha]
  | trans h1 h2 ih1 ih2 =>
    rw [ih1 hk, ih2 ((h1.map Prod.fst).nodup hk)]

theorem canon_obj (l : List (String × Json)) :
    Json.canon (.obj l) =
      .obj (List.insertionSort keyLE (l.map (fun p => (p.1, Json.canon p.2)))) := by
  rw [Json.canon]
  congr 1
  congr 1
  exact List.attach_map_val l (fun p => (p.1, Json.canon p.2))

theorem canon_num (q : ℚ) : Json.canon (.num q) = .num q := by rw [Json.canon]

theorem canon_str (s : String) : Json.canon (.str s) = .str s := by rw [Json.canon]

/-- Object permutation with distinct keys does not change the canonical form:
key order is unobservable in an nlohmann object. -/
theorem canon_obj_perm {l₁ l₂ : List (String × Json)} (h : l₁.Perm l₂)
    (hk : (l₁.map Prod.fst).Nodup) :
    Json.canon (.obj l₁) = Json.canon (.obj l₂) := by
  rw [canon_obj, canon_obj]
  congr 1
  apply insertionSort_eq_of_perm (h.map _)
  have : (l₁.map (fun p => (p.1, Json.canon p.2))).map Prod.fst = l₁.map Prod.fst := by
    simp [List.map_map, Function.comp]
  rw [this]
  exact hk

theorem getNum_ok {j : Json} {q : ℚ} (h : j.getNum = .ok q) : j = .num q := by
  cases j <;> simp [Json.getNum] at h <;> simp [h]

theorem getString_ok {j : Json} {s : String} (h : j.getString = .ok s) : j = .str s := by
  cases j <;> simp [Json.getString] at h <;> simp [h]

/-- Evaluation of `from_json(exchange_info_t)` when every scalar field reads
back successfully. -/
theorem exchange_info_from_json_eq {j jl : Json} {lim : deposit_limit_t} {r f : ℚ}
    {s : String} (h1 : j.atKey "limit" = .ok jl)
    (h2 : deposit_limit_from_json jl = .ok lim) (h3 : j.atKey "rate" = .ok (.num r))
    (h4 : j.atKey "miner_fee" = .ok (.num f)) (h5 : j.atKey "pair" = .ok (.str s)) :
    exchange_info_from_json j = .ok ⟨pair_from_delimited s, lim, r, f⟩ := by
  unfold exchange_info_from_json
  rw [h1]
  simp [h2, h3, h4, h5, Json.getNum, Json.getString, Except.bind, Bind.bind]

/-- Evaluation of `from_json(market_info_t)` when every scalar field reads
back successfully. -/
theorem market_info_from_json_eq {j jl : Json} {lim : deposit_limit_t} {mk tk : ℚ}
    {s : String} (h1 : j.atKey "limit" = .ok jl)
    (h2 : deposit_limit_from_json jl = .ok lim) (h3 : j.atKey "maker_fee" = .ok (.num mk))
    (h4 : j.atKey "taker_fee" = .ok (.num tk)) (h5 : j.atKey "pair" = .ok (.str s)) :
    market_info_from_json j = .ok ⟨pair_from_delimited s, lim, mk, tk⟩ := by
  unfold market_info_from_json
  rw [h1]
  simp [h2, h3, h4, h5, Json.getNum, Json.getString, Except.bind, Bind.bind]

/-- Inversion of a successful `from_json(exchange_info_t)`: recovers the pair
string and shows the stored pair is its delimited-string decode. -/
theorem exchange_info_from_json_inv {j : Json} {m : exchange_info_t}
    (h : exchange_info_from_json j = .ok m) :
    ∃ s, j.atKey "pair" = .ok (.str s) ∧ m.pair = pair_from_delimited s := by
  unfold exchange_info_from_json at h
  cases h1 : j.atKey "limit" <;> rw [h1] at h <;>
    simp [Except.bind, Bind.bind] at h
  next jl =>
  cases h2 : deposit_limit_from_json jl <;> rw [h2] at h <;>
    simp [Except.bind, Bind.bind] at h
  cases h3 : j.atKey "rate" <;> rw [h3] at h <;>
    simp [Except.bind, Bind.bind] at h
  next jr =>
  cases h3b : jr.getNum <;> rw [h3b] at h <;>
    simp [Except.bind, Bind.bind] at h
  cases h4 : j.atKey "miner_fee" <;> rw [h4] at h <;>
    simp [Except.bind, Bind.bind] at h
  next jf =>
  cases h4b : jf.getNum <;> rw [h4b] at h <;>
    simp [Except.bind, Bind.bind] at h
  cases h5 : j.atKey "pair" <;> rw [h5] at h <;>
    simp [Except.bind, Bind.bind] at h
  next jp =>
  cases h5b : jp.getString <;> rw [h5b] at h <;>
    simp [Except.bind, Bind.bind] at h
  next s =>
  have hjp := getString_ok h5b
  subst hjp
  exact ⟨s, rfl, by rw [← h]⟩

/-- Inversion of a successful `from_json(market_info_t)`. -/
theorem market_info_from_json_inv {j : Json} {m : market_info_t}
    (h : market_info_from_json j = .ok m) :
    ∃ s, j.atKey "pair" = .ok (.str s) ∧ m.pair = pair_from_delimited s := by
  unfold market_info_from_json at h
  cases h1 : j.atKey "limit" <;> rw [h1] at h <;>
    simp [Except.bind, Bind.bind] at h
  next jl =>
  cases h2 : deposit_limit_from_json jl <;> rw [h2] at h <;>
    simp [Except.bind, Bind.bind] at h
  cases h3 : j.atKey "maker_fee" <;> rw [h3] at h <;>
    simp [Except.bind, Bind.bind] at h
  next jr =>
  cases h3b : jr.getNum <;> rw [h3b] at h <;>
    simp [Except.bind, Bind.bind] at h
  cases h4 : j.atKey "taker_fee" <;> rw [h4] at h <;>
    simp [Except.bind, Bind.bind] at h
  next jf =>
  cases h4b : jf.getNum <;> rw [h4b] at h <;>
    simp [Except.bind, Bind.bind] at h
  cases h5 : j.atKey "pair" <;> rw [h5] at h <;>
    simp [Except.bind, Bind.bind] at h
  next jp =>
  cases h5b : jp.getString <;> rw [h5b] at h <;>
    simp [Except.bind, Bind.bind] at h
  next s =>
  have hjp := getString_ok h5b
  subst hjp
  exact ⟨s, rfl, by rw [← h]⟩

/-- Without a delimiter the decoded pair stays default-constructed. -/
theorem pair_from_delimited_no_us {s : String} (h : '_' ∉ s.data) :
    pair_from_delimited s = {} := by
  unfold pair_from_delimited
  rw [findLastUS_eq_none h]

/-- Claim C1: for every document whose `pair` field is a string containing at
least one `'_'`, decoding `exchange_info_t` (and likewise `market_info_t`)
sets the pair to the upper-cased substrings before/after the LAST `'_'`
(the returned index `i` is an underscore position with no underscore after
it); in particular `"BTC_ETH_USD"` splits into `"BTC_ETH"` and `"USD"`. -/
theorem claim_C1 (j : Json) (s : String)
    (hp : j.atKey "pair" = .ok (.str s)) (hus : '_' ∈ s.data) :
    ∃ i, findLastUS s.data = some i ∧ s.data.get? i = some '_' ∧
      (∀ k, i < k → s.data.get? k ≠ some '_') ∧
      (∀ m, exchange_info_from_json j = .ok m →
        m.pair = currency_pair_t.make ⟨s.data.take i⟩ ⟨s.data.drop (i + 1)⟩) ∧
      (∀ m, market_info_from_json j = .ok m →
        m.pair = currency_pair_t.make ⟨s.data.take i⟩ ⟨s.data.drop (i + 1)⟩) := by
  have hsome := findLastUS_isSome hus
  rcases hfind : findLastUS s.data with _ | i
  · rw [hfind] at hsome
    simp at hsome
  · obtain ⟨hget, hlast⟩ := findLastUS_last hfind
    refine ⟨i, rfl, hget, hlast, ?_, ?_⟩
    · intro m hm
      obtain ⟨s', hp', hpair⟩ := exchange_info_from_json_inv hm
      have hs : s' = s := by
        rw [hp] at hp'
        exact (Json.str.inj (Except.ok.inj hp')).symm
      subst hs
      rw [hpair]
      simp [pair_from_delimited, hfind]
    · intro m hm
      obtain ⟨s', hp', hpair⟩ := market_info_from_json_inv hm
      have hs : s' = s := by
        rw [hp] at hp'
        exact (Json.str.inj (Except.ok.inj hp')).symm
      subst hs
      rw [hpair]
      simp [pair_from_delimited, hfind]

/-- Witness for C1 at the document of the spec's example: the last underscore
of `"BTC_ETH_USD"` sits at index 7, and both decoders produce the pair
`BTC_ETH` / `USD`. -/
theorem claim_C1_witness :
    ("BTC_ETH_USD" : String).data.get? 7 = some '_' ∧
    exchange_info_from_json
        (.obj [("limit", .obj [("min", .num 1), ("max", .num 2)]),
               ("rate", .num 3), ("miner_fee", .num 4), ("pair", .str "BTC_ETH_USD")]) =
      .ok ⟨currency_pair_t.make "BTC_ETH" "USD", ⟨1, 2⟩, 3, 4⟩ ∧
    market_info_from_json
        (.obj [("limit", .obj [("min", .num 1), ("max", .num 2)]),
               ("maker_fee", .num 5), ("taker_fee", .num 6), ("pair", .str "BTC_ETH_USD")]) =
      .ok ⟨currency_pair_t.make "BTC_ETH" "USD", ⟨1, 2⟩, 5, 6⟩ := by
  have h := claim_C1
    (.obj [("limit", .obj [("min", .num 1), ("max", .num 2)]),
           ("rate", .num 3), ("miner_fee", .num 4), ("pair", .str "BTC_ETH_USD")])
    "BTC_ETH_USD" rfl (by decide)
  obtain ⟨i, hf, hget, _, _, _⟩ := h
  have h7 : findLastUS ("BTC_ETH_USD" : String).data = some 7 := by decide
  rw [h7] at hf
  have hi : i = 7 := (Option.some.inj hf).symm
  subst hi
  exact ⟨hget, rfl, rfl⟩

/-- Counterexample to claim C2: decoding the two-element sequence
`["btc","usd"]` stores the components verbatim (lower-case), not the
upper-cased values the constructor would produce — `from_json` assigns the
fields directly and bypasses the upper-casing constructor. -/
theorem claim_C2_counterexample :
    currency_pair_from_json (.arr [.str "btc", .str "usd"]) = .ok ⟨"btc", "usd"⟩ ∧
    currency_pair_from_json (.arr [.str "btc", .str "usd"]) ≠
      .ok (currency_pair_t.make "btc" "usd") := by
  refine ⟨rfl, ?_⟩
  intro h
  have h1 : currency_pair_from_json (.arr [.str "btc", .str "usd"])
      = .ok ⟨"btc", "usd"⟩ := rfl
  rw [h1] at h
  have h2 := Except.ok.inj h
  have h3 : ("btc" : String) = toupper "btc" := congrArg currency_pair_t.first h2
  exact absurd (h3.trans (rfl : toupper "btc" = "BTC")) (by decide)

/-- Claim C2 as amended: decoding a two-element sequence of strings takes
element 0 as base and element 1 as quote and stores both verbatim, with no
upper-casing. -/
theorem claim_C2_amended (a b : String) :
    currency_pair_from_json (.arr [.str a, .str b]) = .ok ⟨a, b⟩ := rfl

/-- Witness for the amended C2 at a concrete lower-case input. -/
theorem claim_C2_amended_witness :
    currency_pair_from_json (.arr [.str "eth", .str "btc"]) = .ok ⟨"eth", "btc"⟩ :=
  claim_C2_amended "eth" "btc"

/-- Claim C3: when the `pair` field is a string with no `'_'`, decoding
`exchange_info_t` / `market_info_t` does not fail (given the other required
fields decode) and the pair is left default-constructed with empty base and
quote. -/
theorem claim_C3 (j jl : Json) (lim : deposit_limit_t) (r f mk tk : ℚ) (s : String)
    (h1 : j.atKey "limit" = .ok jl) (h2 : deposit_limit_from_json jl = .ok lim)
    (hp : j.atKey "pair" = .ok (.str s)) (hus : '_' ∉ s.data) :
    (j.atKey "rate" = .ok (.num r) → j.atKey "miner_fee" = .ok (.num f) →
      exchange_info_from_json j = .ok ⟨⟨"", ""⟩, lim, r, f⟩) ∧
    (j.atKey "maker_fee" = .ok (.num mk) → j.atKey "taker_fee" = .ok (.num tk) →
      market_info_from_json j = .ok ⟨⟨"", ""⟩, lim, mk, tk⟩) := by
  constructor
  · intro h3 h4
    have he := exchange_info_from_json_eq h1 h2 h3 h4 hp
    rwa [pair_from_delimited_no_us hus] at he
  · intro h3 h4
    have he := market_info_from_json_eq h1 h2 h3 h4 hp
    rwa [pair_from_delimited_no_us hus] at he

/-- Witness for C3 at the spec's example `"BTCUSD"`: both decodes succeed and
return the empty pair. -/
theorem claim_C3_witness :
    exchange_info_from_json
        (.obj [("limit", .obj [("min", .num 1), ("max", .num 2)]), ("rate", .num 3),
               ("miner_fee", .num 4), ("maker_fee", .num 5), ("taker_fee", .num 6),
               ("pair", .str "BTCUSD")]) =
      .ok ⟨⟨"", ""⟩, ⟨1, 2⟩, 3, 4⟩ ∧
    market_info_from_json
        (.obj [("limit", .obj [("min", .num 1), ("max", .num 2)]), ("rate", .num 3),
               ("miner_fee", .num 4), ("maker_fee", .num 5), ("taker_fee", .num 6),
               ("pair", .str "BTCUSD")]) =
      .ok ⟨⟨"", ""⟩, ⟨1, 2⟩, 5, 6⟩ := by
  have h := claim_C3
    (.obj [("limit", .obj [("min", .num 1), ("max", .num 2)]), ("rate", .num 3),
           ("miner_fee", .num 4), ("maker_fee", .num 5), ("taker_fee", .num 6),
           ("pair", .str "BTCUSD")])
    (.obj [("min", .num 1), ("max", .num 2)]) ⟨1, 2⟩ 3 4 5 6 "BTCUSD"
    rfl rfl rfl (by decide)
  exact ⟨h.1 rfl rfl, h.2 rfl rfl⟩

/-- Claim C4: `numeric_string` returns the field's string unchanged for
strings, the literal `"0.0"` for null, and for every other document kind
fails with the runtime error built from the field's rendered form; the bare
number `42` in particular produces a failure. -/
theorem claim_C4 :
    (∀ s, numeric_string (.str s) = .ok s) ∧
    numeric_string .null = .ok "0.0" ∧
    (∀ j : Json, (∀ s, j ≠ .str s) → j ≠ .null →
      numeric_string j =
        .error (.runtimeError ("field " ++ j.render ++ " is not string or null"))) ∧
    numeric_string (.num 42) = .error (.runtimeError "field 42 is not string or null") := by
  refine ⟨fun s => rfl, rfl, ?_, ?_⟩
  · intro j hs hn
    cases j with
    | null => exact absurd rfl hn
    | str s => exact absurd rfl (hs s)
    | bool b => rfl
    | num q => rfl
    | arr xs => rfl
    | obj fs => rfl
  · simp [numeric_string, Json.render, qRender]
    decide

/-- Witness for C4's error case at the concrete boolean field `true`. -/
theorem claim_C4_witness :
    numeric_string (.bool true) = .error (.runtimeError "field true is not string or null") := by
  have h := claim_C4.2.2.1 (.bool true) (fun s hs => Json.noConfusion hs)
    (fun hn => Json.noConfusion hn)
  rw [h]
  simp [Json.render]

/-- Claim C5: the status encoder maps each of the nine members to its fixed
lowercase label, and both `expired` and every value outside the eight
explicit switch cases fall to the default branch printing `"expired"`. -/
theorem claim_C5 :
    (status_str status_t.no_deposists = "no_deposists" ∧
     status_str status_t.initial = "initial" ∧
     status_str status_t.received = "received" ∧
     status_str status_t.complete = "complete" ∧
     status_str status_t.settled = "settled" ∧
     status_str status_t.pending = "pending" ∧
     status_str status_t.failed = "failed" ∧
     status_str status_t.partial_ = "partial" ∧
     status_str status_t.expired = "expired") ∧
    ∀ s : status_t,
      s ∉ [status_t.no_deposists, status_t.initial, status_t.received,
           status_t.complete, status_t.settled, status_t.pending,
           status_t.failed, status_t.partial_] →
      status_str s = "expired" := by
  refine ⟨by decide, ?_⟩
  intro s hs
  simp only [List.mem_cons, List.not_mem_nil, or_false, not_or] at hs
  obtain ⟨n1, n2, n3, n4, n5, n6, n7, n8⟩ := hs
  simp [status_str, n1, n2, n3, n4, n5, n6, n7, n8]

/-- Witness for C5's default case at the out-of-enumeration value `'z'`. -/
theorem claim_C5_witness : status_str 'z' = "expired" :=
  claim_C5.2 'z' (by decide)

/-- Claim C6: for base and quote strings free of `'_'`, the delimited-string
decode of the pair's display string reproduces the pair exactly. -/
theorem claim_C6 (b q : String) (hb : '_' ∉ b.data) (hq : '_' ∉ q.data) :
    pair_from_delimited ((currency_pair_t.make b q).str) = currency_pair_t.make b q := by
  have hdata : ((currency_pair_t.make b q).str).data
      = (toupper b).data ++ '_' :: (toupper q).data := by
    show ((toupper b ++ "_") ++ toupper q).data = _
    rw [String.data_append, String.data_append]
    rw [List.append_assoc]
    rfl
  have hB : '_' ∉ (toupper q).data := toupper_not_mem_us hq
  have hfind : findLastUS ((currency_pair_t.make b q).str).data
      = some (toupper b).data.length := by
    rw [hdata]
    exact findLastUS_append _ _ hB
  have hdrop : ((currency_pair_t.make b q).str).data.drop ((toupper b).data.length + 1)
      = (toupper q).data := by
    rw [hdata]
    have h2 : (toupper b).data ++ '_' :: (toupper q).data
        = ((toupper b).data ++ ['_']) ++ (toupper q).data := by simp
    have h3 : (toupper b).data.length + 1 = ((toupper b).data ++ ['_']).length := by simp
    rw [h2, h3, List.drop_left]
  have htake : ((currency_pair_t.make b q).str).data.take (toupper b).data.length
      = (toupper b).data := by
    rw [hdata]
    have h2 : (toupper b).data ++ '_' :: (toupper q).data
        = (toupper b).data ++ ('_' :: (toupper q).data) := rfl
    rw [h2, List.take_left]
  simp only [pair_from_delimited, hfind, htake, hdrop]
  show currency_pair_t.make (toupper b) (toupper q) = _
  simp [currency_pair_t.make, toupper_toupper]

/-- Witness for C6 at the concrete pair `btc` / `usd`. -/
theorem claim_C6_witness :
    pair_from_delimited ((currency_pair_t.make "btc" "usd").str) =
      currency_pair_t.make "btc" "usd" :=
  claim_C6 "btc" "usd" (by decide) (by decide)

/-- Claim C7 divergence: decoding `deposit_info_t` from a document lacking
`"limit"` hits the unchecked `j["limit"]` access (undefined behaviour /
assertion in nlohmann), NOT a `MissingField` error naming the field; a
document lacking `"fee"` does produce `MissingField "fee"` as claimed,
because that field is read with `.at`. -/
theorem claim_C7_code_divergence :
    deposit_info_from_json
        (.obj [("fee", .num 1), ("currency", .str "BTC"), ("method", .str "wire")]) =
      .error (.uncheckedAccess "limit") ∧
    deposit_info_from_json
        (.obj [("limit", .obj [("min", .num 1), ("max", .num 2)]),
               ("currency", .str "BTC"), ("method", .str "wire")]) =
      .error (.missingField "fee") :=
  ⟨rfl, rfl⟩

/-- Counterexample to claim C8: encoding the (default) hash value `""` fails,
because `to_json(hash_t)` re-parses the stored string as JSON. -/
theorem claim_C8_counterexample : hash_to_json "" = .error .parseError := rfl

/-- Claim C8 as amended: encoding is total for every type of the layer except
`hash_t` — each of the remaining encoders succeeds on every input. -/
theorem claim_C8_amended :
    (∀ c : currency_pair_t, ∃ j, currency_pair_to_json c = .ok j) ∧
    (∀ c : coin_t, ∃ j, coin_to_json c = .ok j) ∧
    (∀ d : deposit_limit_t, ∃ j, deposit_limit_to_json d = .ok j) ∧
    (∀ d : deposit_info_t, ∃ j, deposit_info_to_json d = .ok j) ∧
    (∀ m : exchange_info_t, ∃ j, exchange_info_to_json m = .ok j) ∧
    (∀ m : market_info_t, ∃ j, market_info_to_json m = .ok j) :=
  ⟨fun _ => ⟨_, rfl⟩, fun _ => ⟨_, rfl⟩, fun _ => ⟨_, rfl⟩, fun _ => ⟨_, rfl⟩,
   fun _ => ⟨_, rfl⟩, fun _ => ⟨_, rfl⟩⟩

/-- Witness for the amended C8 at a concrete deposit-info value. -/
theorem claim_C8_amended_witness :
    ∃ j, deposit_info_to_json ⟨⟨1, 2⟩, 3, "BTC", "wire"⟩ = .ok j :=
  claim_C8_amended.2.2.2.1 ⟨⟨1, 2⟩, 3, "BTC", "wire"⟩

/-- Claim C9: decoding a well-formed `deposit_info_t` document (exactly the
keys `limit`/`fee`/`currency`/`method`, with `limit` holding exactly
`min`/`max` numbers, in any key order) and re-encoding yields a document
equal to the original up to mapping key order (equal canonical forms). -/
theorem claim_C9 (fs ls : List (String × Json)) (mn mx f : ℚ) (c m : String)
    (hfs : fs.Perm [("limit", .obj ls), ("fee", .num f),
                    ("currency", .str c), ("method", .str m)])
    (hls : ls.Perm [("min", .num mn), ("max", .num mx)]) :
    deposit_info_from_json (.obj fs) = .ok ⟨⟨mn, mx⟩, f, c, m⟩ ∧
    ∃ e, deposit_info_to_json ⟨⟨mn, mx⟩, f, c, m⟩ = .ok e ∧
      e.canon = (Json.obj fs).canon := by
  have hkf : (fs.map Prod.fst).Nodup := (hfs.map Prod.fst).symm.nodup (by simp)
  have hkl : (ls.map Prod.fst).Nodup := (hls.map Prod.fst).symm.nodup (by simp)
  have hlk1 : lookupKey "limit" fs = some (.obj ls) := by
    rw [lookupKey_perm hfs hkf]
    rfl
  have hlk2 : lookupKey "fee" fs = some (.num f) := by
    rw [lookupKey_perm hfs hkf]
    rfl
  have hlk3 : lookupKey "currency" fs = some (.str c) := by
    rw [lookupKey_perm hfs hkf]
    rfl
  have hlk4 : lookupKey "method" fs = some (.str m) := by
    rw [lookupKey_perm hfs hkf]
    rfl
  have hlkmin : lookupKey "min" ls = some (.num mn) := by
    rw [lookupKey_perm hls hkl]
    rfl
  have hlkmax : lookupKey "max" ls = some (.num mx) := by
    rw [lookupKey_perm hls hkl]
    rfl
  constructor
  · unfold deposit_info_from_json
    simp [Json.index, Json.atKey, hlk1, hlk2, hlk3, hlk4, hlkmin, hlkmax,
          Json.getNum, Json.getString, Except.bind, Bind.bind]
  · refine ⟨_, rfl, ?_⟩
    rw [canon_obj_perm hfs hkf]
    rw [canon_obj, canon_obj]
    simp [canon_num, canon_str, canon_obj_perm hls hkl]

/-- Witness for C9 at a concrete well-formed document. -/
theorem claim_C9_witness :
    deposit_info_from_json
        (.obj [("limit", .obj [("min", .num 1), ("max", .num 2)]), ("fee", .num 3),
               ("currency", .str "BTC"), ("method", .str "wire")]) =
      .ok ⟨⟨1, 2⟩, 3, "BTC", "wire"⟩ ∧
    ∃ e, deposit_info_to_json ⟨⟨1, 2⟩, 3, "BTC", "wire"⟩ = .ok e ∧
      e.canon = (Json.obj [("limit", .obj [("min", .num 1), ("max", .num 2)]),
                           ("fee", .num 3), ("currency", .str "BTC"),
                           ("method", .str "wire")]).canon :=
  claim_C9 [("limit", .obj [("min", .num 1), ("max", .num 2)]), ("fee", .num 3),
            ("currency", .str "BTC"), ("method", .str "wire")]
    [("min", .num 1), ("max", .num 2)] 1 2 3 "BTC" "wire"
    (List.Perm.refl _) (List.Perm.refl _)

/-- Claim C10: the default-constructed pair has empty components and display
string `"_"`, and consequently encoding an `exchange_info_t` /
`market_info_t` whose pair was silently defaulted (decoded from a
no-underscore string) emits the `pair` field as the string `"_"`. -/
theorem claim_C10 :
    (({} : currency_pair_t).first = "" ∧ ({} : currency_pair_t).second = "" ∧
     ({} : currency_pair_t).str = "_") ∧
    (∀ (j : Json) (s : String) (m : exchange_info_t),
      j.atKey "pair" = .ok (.str s) → '_' ∉ s.data →
      exchange_info_from_json j = .ok m →
      ∃ rest, exchange_info_to_json m = .ok (.obj (("pair", .str "_") :: rest))) ∧
    (∀ (j : Json) (s : String) (m : market_info_t),
      j.atKey "pair" = .ok (.str s) → '_' ∉ s.data →
      market_info_from_json j = .ok m →
      ∃ rest, market_info_to_json m = .ok (.obj (("pair", .str "_") :: rest))) := by
  refine ⟨⟨rfl, rfl, rfl⟩, ?_, ?_⟩
  · intro j s m hp hus hm
    obtain ⟨s', hp', hpair⟩ := exchange_info_from_json_inv hm
    have hs : s' = s := by
      rw [hp] at hp'
      exact (Json.str.inj (Except.ok.inj hp')).symm
    subst hs
    have hstr : m.pair.str = "_" := by
      rw [hpair, pair_from_delimited_no_us hus]
      rfl
    refine ⟨[("limit", .obj [("min", .num m.limit.min), ("max", .num m.limit.max)]),
             ("rate", .num m.rate), ("miner_fee", .num m.miner_fee)], ?_⟩
    unfold exchange_info_to_json deposit_limit_to_json
    simp [Except.bind, Bind.bind, hstr]
  · intro j s m hp hus hm
    obtain ⟨s', hp', hpair⟩ := market_info_from_json_inv hm
    have hs : s' = s := by
      rw [hp] at hp'
      exact (Json.str.inj (Except.ok.inj hp')).symm
    subst hs
    have hstr : m.pair.str = "_" := by
      rw [hpair, pair_from_delimited_no_us hus]
      rfl
    refine ⟨[("limit", .obj [("min", .num m.limit.min), ("max", .num m.limit.max)]),
             ("taker_fee", .num m.taker_fee), ("maker_fee", .num m.maker_fee)], ?_⟩
    unfold market_info_to_json deposit_limit_to_json
    simp [Except.bind, Bind.bind, hstr]

/-- Witness for C10's encode consequence at a pair defaulted from `"BTCUSD"`. -/
theorem claim_C10_witness :
    ∃ rest, exchange_info_to_json ⟨⟨"", ""⟩, ⟨1, 2⟩, 3, 4⟩ =
      .ok (.obj (("pair", .str "_") :: rest)) :=
  claim_C10.2.1
    (.obj [("limit", .obj [("min", .num 1), ("max", .num 2)]), ("rate", .num 3),
           ("miner_fee", .num 4), ("pair", .str "BTCUSD")])
    "BTCUSD" ⟨⟨"", ""⟩, ⟨1, 2⟩, 3, 4⟩ rfl (by decide) rfl

end AT
